import Mathlib

/-!
Verification of the latest-file selection and table-sync engine of
`ftp_to_sheets.py` (repository `OOCLdatapulled`).

The script is embedded shallowly:

* remote file descriptors `(name, optional mtime, size)` become the
  structure `Desc`, with UTC timestamps embedded as `Nat` (the value `0`
  embeds `datetime.min`, the sentinel the script substitutes for a
  missing modification time via `t[1] or datetime.min`);
* the selection logic of `main` (lines 116-119) becomes `selectLatest`,
  with Python's first-maximum `max(..., key=...)` embedded as `pickByMtime`
  and the stable `sorted(...)[-1]` as `lastMaxByName`;
* Python string comparison (code-point lexicographic) becomes `strLt`
  on `List Char`, defined structurally so that it evaluates;
* `load_df_from_bytes` becomes a function of the same name, with the
  three pandas entry points it calls supplied as an abstract `Parsers`
  record (pandas is an external library, not part of the repository);
* the candidate eligibility filter (lines 98-109) becomes
  `buildCandidates`, with the FTP `SIZE`/`MDTM` queries as oracles;
* the column truncation and value sanitisation (lines 132-136) become
  `truncateCols` and `sanitizeTable` over a `Table` of `Cell`s;
* the worksheet mutation sequence (lines 141-175) becomes `runSync`,
  which records every attempted remote call in a trace of `Action`s and
  reports the first failing step; gspread call outcomes are supplied by
  a `SheetEnv` record of success flags, and cell references are embedded
  as 1-based (row, column) pairs (`"A1"` is `(1,1)`, `"D1"` is `(1,4)`);
* the run boundary of `main` (select, parse, normalise, sync, exit
  status) becomes `runMain`.
-/

namespace OOCL

/-- Strict lexicographic order on lists of characters by Unicode code
point, matching Python's string comparison. Structural so that it can
be evaluated by `decide`. -/
def charsLtB : List Char → List Char → Bool
  | _, [] => false
  | [], _ :: _ => true
  | a :: as, b :: bs => if a < b then true else if a = b then charsLtB as bs else false

/-- Python's `s1 < s2` on strings. -/
def strLt (a b : String) : Prop := charsLtB a.data b.data = true

instance (a b : String) : Decidable (strLt a b) := by unfold strLt; infer_instance

/-- Python's `s1 <= s2` on strings. -/
def strLe (a b : String) : Prop := strLt a b ∨ a = b

instance (a b : String) : Decidable (strLe a b) := by unfold strLe; infer_instance

theorem charsLtB_asymm : ∀ a b : List Char, charsLtB a b = true → charsLtB b a = false := by
  intro a b
  induction a generalizing b with
  | nil => intro h; cases b with
    | nil => simp [charsLtB] at h
    | cons y ys => simp [charsLtB]
  | cons x xs ih =>
    intro h
    cases b with
    | nil => simp [charsLtB] at h
    | cons y ys =>
      simp only [charsLtB] at h ⊢
      by_cases hxy : x < y
      · have hyx : ¬ y < x := lt_asymm hxy
        have hne : ¬ y = x := fun he => absurd (he ▸ hxy) (lt_irrefl y)
        simp [hyx, hne]
      · simp only [hxy, if_false] at h
        by_cases hxe : x = y
        · subst hxe
          simp only [if_pos rfl] at h
          simp [lt_irrefl, ih ys h]
        · simp [hxe] at h

theorem charsLtB_trans : ∀ a b c : List Char,
    charsLtB a b = true → charsLtB b c = true → charsLtB a c = true := by
  intro a b c
  induction a generalizing b c with
  | nil =>
    intro hab hbc
    cases b with
    | nil => simp [charsLtB] at hab
    | cons y ys =>
      cases c with
      | nil => simp [charsLtB] at hbc
      | cons z zs => simp [charsLtB]
  | cons x xs ih =>
    intro hab hbc
    cases b with
    | nil => simp [charsLtB] at hab
    | cons y ys =>
      cases c with
      | nil => simp [charsLtB] at hbc
      | cons z zs =>
        simp only [charsLtB] at hab hbc ⊢
        by_cases hxy : x < y
        · by_cases hyz : y < z
          · have : x < z := lt_trans hxy hyz
            simp [this]
          · simp only [hyz, if_false] at hbc
            by_cases hyze : y = z
            · subst hyze; simp [hxy]
            · simp [hyze] at hbc
        · simp only [hxy, if_false] at hab
          by_cases hxye : x = y
          · subst hxye
            simp only [if_pos rfl] at hab
            by_cases hyz : x < z
            · simp [hyz]
            · simp only [hyz, if_false] at hbc ⊢
              by_cases hyze : x = z
              · subst hyze
                simp only [if_pos rfl] at hbc ⊢
                exact ih ys zs hab hbc
              · simp [hyze] at hbc
          · simp [hxye] at hab

theorem charsLtB_total : ∀ a b : List Char,
    charsLtB a b = false → charsLtB b a = false → a = b := by
  intro a b
  induction a generalizing b with
  | nil =>
    intro hab hba
    cases b with
    | nil => rfl
    | cons y ys => simp [charsLtB] at hab
  | cons x xs ih =>
    intro hab hba
    cases b with
    | nil => simp [charsLtB] at hba
    | cons y ys =>
      simp only [charsLtB] at hab hba
      by_cases hxy : x < y
      · simp [hxy] at hab
      · by_cases hyx : y < x
        · simp [hyx] at hba
        · have hxe : x = y := Char.le_antisymm (Nat.not_lt.mp hyx) (Nat.not_lt.mp hxy)
          subst hxe
          simp only [if_pos rfl, if_neg hxy] at hab hba
          rw [ih ys hab hba]

theorem string_data_eq {a b : String} (h : a.data = b.data) : a = b := by
  cases a; cases b; exact congrArg String.mk h

theorem strLt_trans {a b c : String} (h1 : strLt a b) (h2 : strLt b c) : strLt a c :=
  charsLtB_trans _ _ _ h1 h2

theorem strLe_of_lt {a b : String} (h : strLt a b) : strLe a b := Or.inl h

theorem strLe_refl (a : String) : strLe a a := Or.inr rfl

theorem strLe_of_not_lt {a b : String} (h : ¬ strLt a b) : strLe b a := by
  have hab : charsLtB a.data b.data = false := by
    cases hx : charsLtB a.data b.data with
    | false => rfl
    | true => exact absurd hx h
  cases hy : charsLtB b.data a.data with
  | true => exact Or.inl hy
  | false => exact Or.inr (string_data_eq (charsLtB_total _ _ hy hab))

theorem strLe_trans {a b c : String} (h1 : strLe a b) (h2 : strLe b c) : strLe a c := by
  rcases h1 with h1 | rfl
  · rcases h2 with h2 | rfl
    · exact Or.inl (strLt_trans h1 h2)
    · exact Or.inl h1
  · exact h2

/-- One remote file as listed by `main`: the tuple `(n, mdtm, size)`
appended to `candidates` at line 109 of `ftp_to_sheets.py`. `mtime` is
`none` when the `MDTM` query failed (`get_mdtm` returned `None`). -/
structure Desc where
  name : String
  mtime : Option Nat
  size : Int
deriving DecidableEq

/-- Strict comparison of the Python key tuples
`(t[1] or datetime.min, t[0])`: lexicographic on (timestamp, name). -/
def pairLt (a b : Nat × String) : Prop := a.1 < b.1 ∨ (a.1 = b.1 ∧ strLt a.2 b.2)

instance (a b : Nat × String) : Decidable (pairLt a b) := by unfold pairLt; infer_instance

/-- Non-strict counterpart of `pairLt`. -/
def pairLe (a b : Nat × String) : Prop := a.1 < b.1 ∨ (a.1 = b.1 ∧ strLe a.2 b.2)

theorem pairLe_refl (a : Nat × String) : pairLe a a := Or.inr ⟨rfl, strLe_refl _⟩

theorem pairLe_of_lt {a b : Nat × String} (h : pairLt a b) : pairLe a b := by
  rcases h with h | ⟨h1, h2⟩
  · exact Or.inl h
  · exact Or.inr ⟨h1, strLe_of_lt h2⟩

theorem pairLe_of_not_lt {a b : Nat × String} (h : ¬ pairLt a b) : pairLe b a := by
  rcases Nat.lt_trichotomy b.1 a.1 with hlt | heq | hgt
  · exact Or.inl hlt
  · have hns : ¬ strLt a.2 b.2 := fun hs => h (Or.inr ⟨heq.symm, hs⟩)
    exact Or.inr ⟨heq, strLe_of_not_lt hns⟩
  · exact absurd (Or.inl hgt) h

theorem pairLe_trans {a b c : Nat × String} (h1 : pairLe a b) (h2 : pairLe b c) :
    pairLe a c := by
  rcases h1 with h1 | ⟨h1e, h1s⟩
  · rcases h2 with h2 | ⟨h2e, _⟩
    · exact Or.inl (Nat.lt_trans h1 h2)
    · exact Or.inl (h2e ▸ h1)
  · rcases h2 with h2 | ⟨h2e, h2s⟩
    · exact Or.inl (h1e ▸ h2)
    · exact Or.inr ⟨h1e.trans h2e, strLe_trans h1s h2s⟩

/-- The key computed for a candidate at line 117:
`(t[1] or datetime.min.replace(tzinfo=timezone.utc), t[0])`. A missing
time falls back to the minimal timestamp (embedded as `0`); a present
`datetime` is always truthy in Python, so `or` is exactly `Option.getD`. -/
def descKey (c : Desc) : Nat × String := (c.mtime.getD 0, c.name)

/-- Python's `max(candidates, key=...)` (line 117): a left fold that
keeps the current maximum and replaces it only on a strictly greater
key, hence returns the first maximum. -/
def pickByMtime (a : Desc) (l : List Desc) : Desc :=
  l.foldl (fun acc x => if pairLt (descKey acc) (descKey x) then x else acc) a

/-- Python's `sorted(candidates, key=lambda t: t[0])[-1]` (line 119):
the stable ascending sort makes this the last element whose name is
maximal, embedded as a left fold replacing the current maximum on
greater-or-equal names. -/
def lastMaxByName (a : Desc) (l : List Desc) : Desc :=
  l.foldl (fun acc x => if strLt x.name acc.name then acc else x) a

/-- Lines 111-119 of `ftp_to_sheets.py`: `None` on an empty candidate
list (the `if not candidates: return` early exit), otherwise the
timestamp branch when `any(c[1] for c in candidates)` holds (every
non-`None` `datetime` is truthy) and the name-sort branch otherwise. -/
def selectLatest : List Desc → Option Desc
  | [] => none
  | h :: t =>
    if (h :: t).any (fun c => c.mtime.isSome) then some (pickByMtime h t)
    else some (lastMaxByName h t)

theorem pickByMtime_mem : ∀ (l : List Desc) (a : Desc), pickByMtime a l ∈ a :: l := by
  intro l
  induction l with
  | nil => intro a; simp [pickByMtime]
  | cons y t ih =>
    intro a
    have hstep : pickByMtime a (y :: t)
        = pickByMtime (if pairLt (descKey a) (descKey y) then y else a) t := rfl
    rw [hstep]
    rcases List.mem_cons.mp (ih (if pairLt (descKey a) (descKey y) then y else a)) with h | h
    · rw [h]
      split
      · exact List.mem_cons_of_mem _ (List.mem_cons_self _ _)
      · exact List.mem_cons_self _ _
    · exact List.mem_cons_of_mem _ (List.mem_cons_of_mem _ h)

theorem pickByMtime_ge : ∀ (l : List Desc) (a : Desc),
    ∀ x ∈ a :: l, pairLe (descKey x) (descKey (pickByMtime a l)) := by
  intro l
  induction l with
  | nil =>
    intro a x hx
    rcases List.mem_cons.mp hx with h | h
    · rw [h]; exact pairLe_refl _
    · exact absurd h (List.not_mem_nil x)
  | cons y t ih =>
    intro a x hx
    set s := if pairLt (descKey a) (descKey y) then y else a with hs
    have hstep : pickByMtime a (y :: t) = pickByMtime s t := rfl
    rw [hstep]
    have hsa : pairLe (descKey a) (descKey s) := by
      rw [hs]; split
      · exact pairLe_of_lt (by assumption)
      · exact pairLe_refl _
    have hsy : pairLe (descKey y) (descKey s) := by
      rw [hs]; split
      · exact pairLe_refl _
      · exact pairLe_of_not_lt (by assumption)
    have hrec : pairLe (descKey s) (descKey (pickByMtime s t)) :=
      ih s s (List.mem_cons_self _ _)
    rcases List.mem_cons.mp hx with h | h
    · rw [h]; exact pairLe_trans hsa hrec
    · rcases List.mem_cons.mp h with h2 | h2
      · rw [h2]; exact pairLe_trans hsy hrec
      · exact ih s x (List.mem_cons_of_mem _ h2)

theorem lastMaxByName_mem : ∀ (l : List Desc) (a : Desc), lastMaxByName a l ∈ a :: l := by
  intro l
  induction l with
  | nil => intro a; simp [lastMaxByName]
  | cons y t ih =>
    intro a
    have hstep : lastMaxByName a (y :: t)
        = lastMaxByName (if strLt y.name a.name then a else y) t := rfl
    rw [hstep]
    rcases List.mem_cons.mp (ih (if strLt y.name a.name then a else y)) with h | h
    · rw [h]
      split
      · exact List.mem_cons_self _ _
      · exact List.mem_cons_of_mem _ (List.mem_cons_self _ _)
    · exact List.mem_cons_of_mem _ (List.mem_cons_of_mem _ h)

theorem lastMaxByName_ge : ∀ (l : List Desc) (a : Desc),
    ∀ x ∈ a :: l, strLe x.name (lastMaxByName a l).name := by
  intro l
  induction l with
  | nil =>
    intro a x hx
    rcases List.mem_cons.mp hx with h | h
    · rw [h]; exact strLe_refl _
    · exact absurd h (List.not_mem_nil x)
  | cons y t ih =>
    intro a x hx
    set s := if strLt y.name a.name then a else y with hs
    have hstep : lastMaxByName a (y :: t) = lastMaxByName s t := rfl
    rw [hstep]
    have hsa : strLe a.name s.name := by
      rw [hs]; split
      · exact strLe_refl _
      · exact strLe_of_not_lt (by assumption)
    have hsy : strLe y.name s.name := by
      rw [hs]; split
      · exact strLe_of_lt (by assumption)
      · exact strLe_refl _
    have hrec : strLe s.name (lastMaxByName s t).name :=
      ih s s (List.mem_cons_self _ _)
    rcases List.mem_cons.mp hx with h | h
    · rw [h]; exact strLe_trans hsa hrec
    · rcases List.mem_cons.mp h with h2 | h2
      · rw [h2]; exact strLe_trans hsy hrec
      · exact ih s x (List.mem_cons_of_mem _ h2)

/-- One value of the in-memory table. Finite numbers are embedded as
integers; `posInf`, `negInf` embed the floats `np.inf` and `-np.inf`;
`missing` embeds a pandas missing value (`NaN`/`None`). -/
inductive Cell where
  | str (s : String)
  | num (n : Int)
  | posInf
  | negInf
  | missing
deriving DecidableEq

/-- The empty-string placeholder written by `fillna("")`. -/
def emptyMarker : Cell := Cell.str ""

/-- A parsed dataframe: the column labels and the data rows. The column
count of the frame (`df.shape[1]`) is the number of labels. -/
structure Table where
  headers : List Cell
  rows : List (List Cell)
deriving DecidableEq

/-- Python's `str(c)` on a cell, used for `[str(c) for c in df.columns]`
at line 138. -/
def cellToStr : Cell → String
  | Cell.str s => s
  | Cell.num n => toString n
  | Cell.posInf => "inf"
  | Cell.negInf => "-inf"
  | Cell.missing => "nan"

/-- Modelled from the spec: the row shaping performed inside pandas
(`pd.read_csv` / `pd.read_excel`), which is an external library and not
part of this repository. Per section 4.1 of the spec, the column count
is the header row's width; a shorter data row is padded with the empty
marker to that width and a longer one is truncated to it. -/
def fitRow (w : Nat) (r : List Cell) : List Cell :=
  r.take w ++ List.replicate (w - r.length) emptyMarker

/-- Modelled from the spec: the overall shape of a successful pandas
parse of a delimited file (external library code). The first raw row
becomes the header row and every following raw row becomes a data row
fitted to the header's width; a file with no rows fails to parse
(pandas raises `EmptyDataError`). -/
def mkTable : List (List Cell) → Option Table
  | [] => none
  | h :: rest => some ⟨h, rest.map (fun r => fitRow h.length r)⟩

/-- Outcomes of the three pandas entry points that
`load_df_from_bytes` can call (`pd.read_csv`, `pd.read_excel`,
`pd.read_csv(..., encoding="latin1")`). pandas is an external
collaborator, so the three parsers are oracles: `none` embeds a raised
exception, `some` a parsed dataframe. -/
structure Parsers where
  read_csv : List Nat → Option Table
  read_excel : List Nat → Option Table
  read_csv_latin1 : List Nat → Option Table

/-- Index of the last occurrence of a character in a list. -/
def lastIdxOf (c : Char) : List Char → Option Nat
  | [] => none
  | a :: t =>
    match lastIdxOf c t with
    | some i => some (i + 1)
    | none => if a = c then some 0 else none

/-- Python's `os.path.splitext(name)[1].lower()` for a plain file name
(no directory separators): the suffix starting at the last dot,
provided some earlier character is not a dot (so `".bashrc"` has no
extension), lowercased. -/
def extOf (name : String) : String :=
  let cs := name.data
  match lastIdxOf '.' cs with
  | none => ""
  | some i =>
    if (cs.take i).any (fun c => c ≠ '.') then String.mk ((cs.drop i).map Char.toLower)
    else ""

/-- Lines 36-54 of `ftp_to_sheets.py` (`load_df_from_bytes`): dispatch
on the lowercased extension — `.csv`/`.txt` and unknown extensions go
to `pd.read_csv`, `.xls`/`.xlsx` to `pd.read_excel`. The surrounding
`try`/`except` catches a failure of either first attempt and retries
`pd.read_csv(bio, encoding="latin1")`; only if that also fails is the
error re-raised (`none`). -/
def load_df_from_bytes (P : Parsers) (filename : String) (data_bytes : List Nat) :
    Option Table :=
  let ext := extOf filename
  let first :=
    if ext = ".csv" ∨ ext = ".txt" then P.read_csv data_bytes
    else if ext = ".xls" ∨ ext = ".xlsx" then P.read_excel data_bytes
    else P.read_csv data_bytes
  match first with
  | some df => some df
  | none => P.read_csv_latin1 data_bytes

/-- Lines 97-109 of `ftp_to_sheets.py`: the eligibility filter over the
listed names. `.` and `..` are skipped, the extension must be one of
the four supported ones, and the `SIZE` query must succeed; the `MDTM`
result (possibly `None`) is recorded in the descriptor. -/
def buildCandidates (names : List String) (sizeOf : String → Option Int)
    (mdtmOf : String → Option Nat) : List Desc :=
  names.filterMap (fun n =>
    if n = "." ∨ n = ".." then none
    else if ¬ (extOf n = ".csv" ∨ extOf n = ".txt" ∨ extOf n = ".xls" ∨ extOf n = ".xlsx")
    then none
    else
      match sizeOf n with
      | none => none
      | some size => some ⟨n, mdtmOf n, size⟩)

/-- Line 132-134: `df = df.iloc[:, :MAX_COLS]` when the frame has more
than 26 columns — the first 26 column labels and the first 26 cells of
every row are kept, anything beyond is dropped. -/
def truncateCols (t : Table) : Table :=
  if 26 < t.headers.length then ⟨t.headers.take 26, t.rows.map (fun r => r.take 26)⟩
  else t

/-- Value-wise effect of line 136,
`df.replace([np.inf, -np.inf], None).fillna("")`. Modelled from the
spec for the external pandas semantics: a positive-infinity,
negative-infinity or missing cell becomes the empty-string marker and
every other value is untouched. -/
def sanitizeCell : Cell → Cell
  | Cell.posInf => emptyMarker
  | Cell.negInf => emptyMarker
  | Cell.missing => emptyMarker
  | c => c

/-- Line 136 applied to the whole frame: `replace`/`fillna` act on the
data values of the frame, not on its column labels. -/
def sanitizeTable (t : Table) : Table :=
  ⟨t.headers, t.rows.map (fun r => r.map sanitizeCell)⟩

/-- One attempted remote worksheet call, with cell references embedded
as 1-based (row, column) pairs: `"A1"` is row 1 column 1 and `"D1"` is
row 1 column 4. -/
inductive Action where
  | batchClear
  | valuesClear
  | addRows (n : Nat)
  | update (row col : Nat) (vals : List (List Cell))
  | insertRow (pos : Nat) (vals : List Cell)
deriving DecidableEq

/-- The step of the destination-mutation sequence at which a run can
first fail. -/
inductive SyncStep where
  | openSpreadsheet
  | resolveWorksheet
  | clearWindow
  | ensureRows
  | writeData
  | insertBlankRow
  | writeTimestamp
  | writeSourceName
deriving DecidableEq

/-- Success flags for every remote call the sync sequence makes, plus
the current row capacity of an existing worksheet. Each flag embeds
whether the corresponding gspread call returns normally (`true`) or
raises (`false`); the spreadsheet service is an external collaborator. -/
structure SheetEnv where
  openOk : Bool
  worksheetExists : Bool
  addWorksheetOk : Bool
  rowCount : Nat
  batchClearOk : Bool
  valuesClearOk : Bool
  addRowsOk : Bool
  updateDataOk : Bool
  insertRowOk : Bool
  updateTimestampOk : Bool
  updateSourceOk : Bool
deriving DecidableEq

/-- Row capacity of the worksheet the run writes to: the existing
sheet's `row_count`, or `max(100, len(values)+10)` when the worksheet
had to be created (line 145). -/
def effectiveRowCount (env : SheetEnv) (values : List (List Cell)) : Nat :=
  if env.worksheetExists then env.rowCount else max 100 (values.length + 10)

/-- Lines 141-175 of `ftp_to_sheets.py`: the worksheet mutation
sequence. Returns the list of attempted remote calls in order together
with the first failing step (`none` when the whole sequence
completes). Mirrors the source: resolve or create the worksheet;
`batch_clear(["A1:Z"])` with a `values_clear` fallback; `add_rows` when
the capacity is below `len(values)`; `update("A1", trimmed)` for the
data (skipped when `trimmed` is empty); `insert_row([''] * 26, 1)`;
`update("A1", [[timestamp]])`; `update("D1", [[source-file string]])`.
Any raised exception aborts the remaining steps. -/
def runSync (env : SheetEnv) (values : List (List Cell)) (filename timestamp : String) :
    List Action × Option SyncStep :=
  if env.openOk = false then ([], some SyncStep.openSpreadsheet)
  else if env.worksheetExists = false ∧ env.addWorksheetOk = false then
    ([], some SyncStep.resolveWorksheet)
  else
    let t1 := if env.batchClearOk then [Action.batchClear]
              else [Action.batchClear, Action.valuesClear]
    if env.batchClearOk = false ∧ env.valuesClearOk = false then (t1, some SyncStep.clearWindow)
    else
      let wsRows := effectiveRowCount env values
      let needed := values.length
      let t2 := if wsRows < needed then t1 ++ [Action.addRows (needed - wsRows)] else t1
      if wsRows < needed ∧ env.addRowsOk = false then (t2, some SyncStep.ensureRows)
      else
        let trimmed := values.map (fun r => r.take 26)
        let t3 := if trimmed = [] then t2 else t2 ++ [Action.update 1 1 trimmed]
        if trimmed ≠ [] ∧ env.updateDataOk = false then (t3, some SyncStep.writeData)
        else
          let t4 := t3 ++ [Action.insertRow 1 (List.replicate 26 (Cell.str ""))]
          if env.insertRowOk = false then (t4, some SyncStep.insertBlankRow)
          else
            let t5 := t4 ++ [Action.update 1 1 [[Cell.str timestamp]]]
            if env.updateTimestampOk = false then (t5, some SyncStep.writeTimestamp)
            else
              let t6 := t5 ++ [Action.update 1 4 [[Cell.str ("Source file name: " ++ filename)]]]
              if env.updateSourceOk = false then (t6, some SyncStep.writeSourceName)
              else (t6, none)

/-- Observable outcome of one invocation of `main`: the process exit
status (`0` for a normal return, `1` when the `except` block re-raises),
the attempted worksheet calls, whether `load_df_from_bytes` was
invoked, and the sync step at which the mutation sequence failed. -/
structure RunResult where
  exitCode : Nat
  trace : List Action
  parseAttempted : Bool
  failure : Option SyncStep
deriving DecidableEq

/-- Lines 97-177 of `ftp_to_sheets.py`: build the candidate list,
return cleanly when it is empty, otherwise pick the latest file, parse
its bytes (the retrieval is external, so the parse outcome per filename
is an oracle `parseFn`), truncate to 26 columns, sanitise the values,
prepend the stringified header row, and run the mutation sequence. Any
exception propagates out of `main` and makes the process exit
non-zero. -/
def runMain (env : SheetEnv) (parseFn : String → Option Table) (names : List String)
    (sizeOf : String → Option Int) (mdtmOf : String → Option Nat)
    (timestamp : String) : RunResult :=
  match selectLatest (buildCandidates names sizeOf mdtmOf) with
  | none => ⟨0, [], false, none⟩
  | some newest =>
    match parseFn newest.name with
    | none => ⟨1, [], true, none⟩
    | some df0 =>
      let df := sanitizeTable (truncateCols df0)
      let values := (df.headers.map (fun c => Cell.str (cellToStr c))) :: df.rows
      let r := runSync env values newest.name timestamp
      ⟨if r.2 = none then 0 else 1, r.1, true, r.2⟩

/-- The part of a descriptor that the selection logic reads: its name
and its optional modification time, but not its size. -/
def sig (c : Desc) : String × Option Nat := (c.name, c.mtime)

theorem descKey_congr {a b : Desc} (h : sig a = sig b) : descKey a = descKey b := by
  have h1 : a.name = b.name := congrArg Prod.fst h
  have h2 : a.mtime = b.mtime := congrArg Prod.snd h
  simp [descKey, h1, h2]

theorem pickByMtime_congr : ∀ (t₁ : List Desc) (t₂ : List Desc) (a₁ a₂ : Desc),
    t₁.map sig = t₂.map sig → sig a₁ = sig a₂ →
    sig (pickByMtime a₁ t₁) = sig (pickByMtime a₂ t₂) := by
  intro t₁
  induction t₁ with
  | nil =>
    intro t₂ a₁ a₂ hmap ha
    cases t₂ with
    | nil => simpa [pickByMtime] using ha
    | cons y ys => simp at hmap
  | cons x xs ih =>
    intro t₂ a₁ a₂ hmap ha
    cases t₂ with
    | nil => simp at hmap
    | cons y ys =>
      simp only [List.map_cons, List.cons.injEq] at hmap
      obtain ⟨hxy, htail⟩ := hmap
      have hk : descKey a₁ = descKey a₂ := descKey_congr ha
      have hkx : descKey x = descKey y := descKey_congr hxy
      have hstep1 : pickByMtime a₁ (x :: xs)
          = pickByMtime (if pairLt (descKey a₁) (descKey x) then x else a₁) xs := rfl
      have hstep2 : pickByMtime a₂ (y :: ys)
          = pickByMtime (if pairLt (descKey a₂) (descKey y) then y else a₂) ys := rfl
      rw [hstep1, hstep2]
      apply ih ys _ _ htail
      by_cases hc : pairLt (descKey a₂) (descKey y)
      · simp only [hk, hkx, if_pos hc]; exact hxy
      · simp only [hk, hkx, if_neg hc]; exact ha

theorem lastMaxByName_congr : ∀ (t₁ : List Desc) (t₂ : List Desc) (a₁ a₂ : Desc),
    t₁.map sig = t₂.map sig → sig a₁ = sig a₂ →
    sig (lastMaxByName a₁ t₁) = sig (lastMaxByName a₂ t₂) := by
  intro t₁
  induction t₁ with
  | nil =>
    intro t₂ a₁ a₂ hmap ha
    cases t₂ with
    | nil => simpa [lastMaxByName] using ha
    | cons y ys => simp at hmap
  | cons x xs ih =>
    intro t₂ a₁ a₂ hmap ha
    cases t₂ with
    | nil => simp at hmap
    | cons y ys =>
      simp only [List.map_cons, List.cons.injEq] at hmap
      obtain ⟨hxy, htail⟩ := hmap
      have hn : a₁.name = a₂.name := congrArg Prod.fst ha
      have hnx : x.name = y.name := congrArg Prod.fst hxy
      have hstep1 : lastMaxByName a₁ (x :: xs)
          = lastMaxByName (if strLt x.name a₁.name then a₁ else x) xs := rfl
      have hstep2 : lastMaxByName a₂ (y :: ys)
          = lastMaxByName (if strLt y.name a₂.name then a₂ else y) ys := rfl
      rw [hstep1, hstep2]
      apply ih ys _ _ htail
      by_cases hc : strLt y.name a₂.name
      · simp only [hn, hnx, if_pos hc]; exact ha
      · simp only [hn, hnx, if_neg hc]; exact hxy

theorem any_isSome_congr : ∀ (l₁ l₂ : List Desc), l₁.map sig = l₂.map sig →
    (l₁.any fun c => c.mtime.isSome) = (l₂.any fun c => c.mtime.isSome) := by
  intro l₁
  induction l₁ with
  | nil =>
    intro l₂ hmap
    cases l₂ with
    | nil => rfl
    | cons y ys => simp at hmap
  | cons x xs ih =>
    intro l₂ hmap
    cases l₂ with
    | nil => simp at hmap
    | cons y ys =>
      simp only [List.map_cons, List.cons.injEq] at hmap
      obtain ⟨hxy, htail⟩ := hmap
      have h2 : x.mtime = y.mtime := congrArg Prod.snd hxy
      simp only [List.any_cons, h2, ih ys htail]

/-- C1, counterexample. The claim as stated fails on one borderline
input: when the only present modification time equals the minimal
representable timestamp (`datetime.min`, embedded as `0`), the key
`t[1] or datetime.min` of line 117 makes a missing-time descriptor tie
with it, and the name tiebreak can then pick the missing-time
descriptor. Here `a.csv` holds the maximum (indeed the only)
modification time, at least one descriptor has a non-null time, yet
the selection returns `b.csv`, whose time is null. -/
theorem selectLatest_sentinel_cex :
    selectLatest [⟨"a.csv", some 0, 1⟩, ⟨"b.csv", none, 1⟩] = some ⟨"b.csv", none, 1⟩ ∧
    (∃ c ∈ [Desc.mk "a.csv" (some 0) 1, Desc.mk "b.csv" none 1], c.mtime.isSome) := by
  decide

/-- C1 (amended): for a candidate list in which some descriptor carries
the modification time `M`, every effective modification time (missing
times count as the minimal timestamp `0`) is at most `M`, and `M` is
strictly later than the minimal representable timestamp, the selection
returns a descriptor whose modification time is `M`; among the
descriptors whose modification time is `M` the returned one has the
lexicographically greatest filename. -/
theorem selectLatest_max_mtime (l : List Desc) (M : Nat)
    (hmem : ∃ c ∈ l, c.mtime = some M)
    (hmax : ∀ c ∈ l, c.mtime.getD 0 ≤ M)
    (hpos : 0 < M) :
    ∃ d, selectLatest l = some d ∧ d ∈ l ∧ d.mtime = some M ∧
      ∀ c ∈ l, c.mtime = some M → strLe c.name d.name := by
  obtain ⟨c0, hc0l, hc0m⟩ := hmem
  cases l with
  | nil => exact absurd hc0l (List.not_mem_nil c0)
  | cons h t =>
    have hany : ((h :: t).any fun c => c.mtime.isSome) = true :=
      List.any_eq_true.mpr ⟨c0, hc0l, by rw [hc0m]; rfl⟩
    have hsel : selectLatest (h :: t) = some (pickByMtime h t) := by
      simp only [selectLatest]
      rw [hany]
      simp
    have hdmem : pickByMtime h t ∈ h :: t := pickByMtime_mem t h
    have hge : ∀ x ∈ h :: t, pairLe (descKey x) (descKey (pickByMtime h t)) :=
      pickByMtime_ge t h
    have hdle : (descKey (pickByMtime h t)).1 ≤ M := hmax _ hdmem
    have hc0le : pairLe (descKey c0) (descKey (pickByMtime h t)) := hge c0 hc0l
    have hkey1 : (descKey c0).1 = M := by simp [descKey, hc0m]
    have hdM : (descKey (pickByMtime h t)).1 = M := by
      rcases hc0le with hlt | ⟨heq, _⟩
      · exact absurd (hkey1 ▸ hlt) (not_lt.mpr hdle)
      · exact heq.symm.trans hkey1
    have hdmt : (pickByMtime h t).mtime = some M := by
      cases hdm : (pickByMtime h t).mtime with
      | none =>
        exfalso
        have h0 : (descKey (pickByMtime h t)).1 = 0 := by simp [descKey, hdm]
        rw [h0] at hdM
        exact absurd hdM.symm (Nat.ne_of_gt hpos)
      | some m =>
        have hm : m = M := by simpa [descKey, hdm] using hdM
        rw [hm]
    refine ⟨pickByMtime h t, hsel, hdmem, hdmt, ?_⟩
    intro c hcl hcm
    rcases hge c hcl with hlt | ⟨_, hle⟩
    · exfalso
      have hc1 : (descKey c).1 = M := by simp [descKey, hcm]
      rw [hc1, hdM] at hlt
      exact lt_irrefl M hlt
    · exact hle

/-- C1, witness: the amended theorem applied to a concrete list whose
maximum modification time `9` is held by both `b.csv` and `c.csv`. -/
theorem selectLatest_max_mtime_witness :
    ∃ d, selectLatest
        [Desc.mk "a.csv" (some 5) 1, Desc.mk "b.csv" (some 9) 2,
         Desc.mk "c.csv" (some 9) 3, Desc.mk "z.csv" none 4] = some d ∧
      d ∈ [Desc.mk "a.csv" (some 5) 1, Desc.mk "b.csv" (some 9) 2,
           Desc.mk "c.csv" (some 9) 3, Desc.mk "z.csv" none 4] ∧
      d.mtime = some 9 ∧
      ∀ c ∈ [Desc.mk "a.csv" (some 5) 1, Desc.mk "b.csv" (some 9) 2,
             Desc.mk "c.csv" (some 9) 3, Desc.mk "z.csv" none 4],
        c.mtime = some 9 → strLe c.name d.name :=
  selectLatest_max_mtime _ 9 (by decide) (by decide) (by decide)

/-- C2: when no candidate has a modification time, the selection
returns a member of the list whose filename is lexicographically
greatest. -/
theorem selectLatest_all_none_lex (l : List Desc) (hne : l ≠ [])
    (hnull : ∀ c ∈ l, c.mtime = none) :
    ∃ d, selectLatest l = some d ∧ d ∈ l ∧ ∀ c ∈ l, strLe c.name d.name := by
  cases l with
  | nil => exact absurd rfl hne
  | cons h t =>
    have hany : ((h :: t).any fun c => c.mtime.isSome) = false := by
      rw [List.any_eq_false]
      intro x hx
      rw [hnull x hx]
      simp
    have hsel : selectLatest (h :: t) = some (lastMaxByName h t) := by
      simp only [selectLatest]
      rw [hany]
      simp
    exact ⟨lastMaxByName h t, hsel, lastMaxByName_mem t h, lastMaxByName_ge t h⟩

/-- C2, witness: the theorem applied to the spec's scenario
(`report_2024.csv` and `report_2025.csv`, both with null modification
time), together with the direct evaluation showing the selected file is
`report_2025.csv`. -/
theorem selectLatest_all_none_lex_witness :
    (∃ d, selectLatest
        [Desc.mk "report_2024.csv" none 100, Desc.mk "report_2025.csv" none 90] = some d ∧
      d ∈ [Desc.mk "report_2024.csv" none 100, Desc.mk "report_2025.csv" none 90] ∧
      ∀ c ∈ [Desc.mk "report_2024.csv" none 100, Desc.mk "report_2025.csv" none 90],
        strLe c.name d.name) ∧
    selectLatest [Desc.mk "report_2024.csv" none 100, Desc.mk "report_2025.csv" none 90]
      = some (Desc.mk "report_2025.csv" none 90) :=
  ⟨selectLatest_all_none_lex _ (by decide) (by decide), by decide⟩

/-- C10: the selection never reads the size component — two candidate
lists with the same names and modification times in the same order, but
arbitrary sizes, yield a selected descriptor with the same filename. -/
theorem selectLatest_size_independent (l₁ l₂ : List Desc)
    (h : l₁.map sig = l₂.map sig) :
    Option.map Desc.name (selectLatest l₁) = Option.map Desc.name (selectLatest l₂) := by
  cases l₁ with
  | nil =>
    cases l₂ with
    | nil => rfl
    | cons y ys => simp at h
  | cons x xs =>
    cases l₂ with
    | nil => simp at h
    | cons y ys =>
      have hany := any_isSome_congr (x :: xs) (y :: ys) h
      have hmap := h
      simp only [List.map_cons, List.cons.injEq] at hmap
      obtain ⟨hxy, htail⟩ := hmap
      cases hb : ((x :: xs).any fun c => c.mtime.isSome) with
      | true =>
        have hb2 : ((y :: ys).any fun c => c.mtime.isSome) = true := by rw [← hany, hb]
        have e1 : selectLatest (x :: xs) = some (pickByMtime x xs) := by
          simp only [selectLatest]
          rw [hb]
          simp
        have e2 : selectLatest (y :: ys) = some (pickByMtime y ys) := by
          simp only [selectLatest]
          rw [hb2]
          simp
        rw [e1, e2]
        exact congrArg (fun s => some s.1) (pickByMtime_congr xs ys x y htail hxy)
      | false =>
        have hb2 : ((y :: ys).any fun c => c.mtime.isSome) = false := by rw [← hany, hb]
        have e1 : selectLatest (x :: xs) = some (lastMaxByName x xs) := by
          simp only [selectLatest]
          rw [hb]
          simp
        have e2 : selectLatest (y :: ys) = some (lastMaxByName y ys) := by
          simp only [selectLatest]
          rw [hb2]
          simp
        rw [e1, e2]
        exact congrArg (fun s => some s.1) (lastMaxByName_congr xs ys x y htail hxy)

theorem fitRow_length (w : Nat) (r : List Cell) : (fitRow w r).length = w := by
  simp only [fitRow, List.length_append, List.length_take, List.length_replicate]
  omega

theorem fitRow_getElem? (w : Nat) (r : List Cell) (j : Nat) :
    (fitRow w r)[j]? =
      if j < w then (if j < r.length then r[j]? else some emptyMarker) else none := by
  unfold fitRow
  rw [List.getElem?_append, List.length_take]
  rcases Nat.lt_or_ge j w with hw | hw
  · rcases Nat.lt_or_ge j r.length with hr | hr
    · have hmin : j < min w r.length := lt_min hw hr
      rw [if_pos hmin, List.getElem?_take, if_pos hw, if_pos hw, if_pos hr]
    · have hmin : ¬ j < min w r.length := by omega
      rw [if_neg hmin, List.getElem?_replicate, if_pos hw, if_neg (by omega : ¬ j < r.length)]
      rw [if_pos (by omega : j - min w r.length < w - r.length)]
  · have hmin : ¬ j < min w r.length := by omega
    rw [if_neg hmin, List.getElem?_replicate, if_neg (by omega : ¬ j < w)]
    rw [if_neg (by omega : ¬ j - min w r.length < w - r.length)]

/-- C5: a successful parse of a delimited file with at least one raw
row yields the first row as header; every later raw row becomes a data
row of exactly the header's width, with its first `min width length`
cells kept unchanged, the remainder padded with the empty marker, and
cells beyond the header width dropped. -/
theorem mkTable_shape (h : List Cell) (rest : List (List Cell)) :
    ∃ T, mkTable (h :: rest) = some T ∧ T.headers = h ∧
      T.rows = rest.map (fun r => fitRow h.length r) ∧
      (∀ r ∈ rest, (fitRow h.length r).length = h.length) ∧
      (∀ r ∈ rest, ∀ j : Nat,
        (fitRow h.length r)[j]? =
          if j < h.length then (if j < r.length then r[j]? else some emptyMarker)
          else none) :=
  ⟨_, rfl, rfl, rfl, fun r _ => fitRow_length h.length r,
    fun r _ j => fitRow_getElem? h.length r j⟩

/-- C5, witness: the shape theorem applied to a header of width 2, one
short data row and one long data row. -/
theorem mkTable_shape_witness :
    ∃ T, mkTable [[Cell.str "a", Cell.str "b"], [Cell.num 1],
        [Cell.num 1, Cell.num 2, Cell.num 3]] = some T ∧
      T.headers = [Cell.str "a", Cell.str "b"] ∧
      T.rows = [[Cell.num 1], [Cell.num 1, Cell.num 2, Cell.num 3]].map
        (fun r => fitRow [Cell.str "a", Cell.str "b"].length r) ∧
      (∀ r ∈ [[Cell.num 1], [Cell.num 1, Cell.num 2, Cell.num 3]],
        (fitRow [Cell.str "a", Cell.str "b"].length r).length
          = [Cell.str "a", Cell.str "b"].length) ∧
      (∀ r ∈ [[Cell.num 1], [Cell.num 1, Cell.num 2, Cell.num 3]], ∀ j : Nat,
        (fitRow [Cell.str "a", Cell.str "b"].length r)[j]? =
          if j < [Cell.str "a", Cell.str "b"].length then
            (if j < r.length then r[j]? else some emptyMarker)
          else none) :=
  mkTable_shape [Cell.str "a", Cell.str "b"] [[Cell.num 1], [Cell.num 1, Cell.num 2, Cell.num 3]]

/-- C6: on a rectangular table with more than 26 columns, the column
truncation keeps exactly the first 26 header cells and the first 26
cells of every row: the result has column count 26, every row has
length 26, the surviving cells are unchanged, and no cell with column
index at least 26 survives. -/
theorem truncateCols_bound (t : Table)
    (hrect : ∀ r ∈ t.rows, r.length = t.headers.length)
    (hC : 26 < t.headers.length) :
    (truncateCols t).headers = t.headers.take 26 ∧
    (truncateCols t).headers.length = 26 ∧
    (truncateCols t).rows = t.rows.map (fun r => r.take 26) ∧
    (∀ r ∈ (truncateCols t).rows, r.length = 26) ∧
    (∀ i j : Nat, ((truncateCols t).rows[i]?.bind (fun r => r[j]?)) =
      if j < 26 then (t.rows[i]?.bind (fun r => r[j]?)) else none) := by
  have he : truncateCols t = ⟨t.headers.take 26, t.rows.map (fun r => r.take 26)⟩ := by
    unfold truncateCols
    rw [if_pos hC]
  rw [he]
  refine ⟨rfl, ?_, rfl, ?_, ?_⟩
  · rw [List.length_take]
    omega
  · intro r hr
    rw [List.mem_map] at hr
    obtain ⟨r0, hr0, rfl⟩ := hr
    rw [List.length_take, hrect r0 hr0]
    omega
  · intro i j
    rw [List.getElem?_map]
    cases hri : t.rows[i]? with
    | none => simp
    | some r0 =>
      simp only [Option.map_some', Option.some_bind]
      rw [List.getElem?_take]

/-- C6, witness: the truncation theorem applied to a rectangular
27-column table with one data row. -/
theorem truncateCols_bound_witness :
    (truncateCols ⟨List.replicate 27 (Cell.str "h"), [List.replicate 27 (Cell.num 2)]⟩).headers
        = (List.replicate 27 (Cell.str "h")).take 26 ∧
    (truncateCols ⟨List.replicate 27 (Cell.str "h"),
        [List.replicate 27 (Cell.num 2)]⟩).headers.length = 26 ∧
    (truncateCols ⟨List.replicate 27 (Cell.str "h"), [List.replicate 27 (Cell.num 2)]⟩).rows
        = [List.replicate 27 (Cell.num 2)].map (fun r => r.take 26) ∧
    (∀ r ∈ (truncateCols ⟨List.replicate 27 (Cell.str "h"),
        [List.replicate 27 (Cell.num 2)]⟩).rows, r.length = 26) ∧
    (∀ i j : Nat,
      ((truncateCols ⟨List.replicate 27 (Cell.str "h"),
          [List.replicate 27 (Cell.num 2)]⟩).rows[i]?.bind (fun r => r[j]?)) =
        if j < 26 then ([List.replicate 27 (Cell.num 2)][i]?.bind (fun r => r[j]?))
        else none) :=
  truncateCols_bound ⟨List.replicate 27 (Cell.str "h"), [List.replicate 27 (Cell.num 2)]⟩
    (by decide) (by decide)

/-- C7: the sanitisation step of line 136 leaves the column labels
untouched, maps every data cell through `sanitizeCell`, and
`sanitizeCell` sends exactly the positive-infinity, negative-infinity
and missing values to the empty-string marker while fixing every string
and every finite number. -/
theorem sanitizeTable_spec (t : Table) :
    (sanitizeTable t).headers = t.headers ∧
    (sanitizeTable t).rows = t.rows.map (fun r => r.map sanitizeCell) ∧
    sanitizeCell Cell.posInf = emptyMarker ∧
    sanitizeCell Cell.negInf = emptyMarker ∧
    sanitizeCell Cell.missing = emptyMarker ∧
    (∀ s : String, sanitizeCell (Cell.str s) = Cell.str s) ∧
    (∀ n : Int, sanitizeCell (Cell.num n) = Cell.num n) :=
  ⟨rfl, rfl, rfl, rfl, rfl, fun _ => rfl, fun _ => rfl⟩

/-- Parser oracle for the C4 counterexample: the strict and the
spreadsheet parsers fail, the permissive latin1 parser succeeds. -/
def latin1OnlyParsers : Parsers :=
  ⟨fun _ => none, fun _ => none, fun _ => some ⟨[Cell.str "h"], [[Cell.num 1]]⟩⟩

/-- C4, counterexample: for an `.xlsx` file whose spreadsheet-binary
parse fails, `load_df_from_bytes` does not surface the failure — the
`except` clause at lines 49-51 retries `pd.read_csv(bio,
encoding="latin1")` for every extension, and here that fallback
succeeds, so the call returns a dataframe instead of failing. -/
theorem load_df_excel_retry_cex :
    latin1OnlyParsers.read_excel [80, 75, 3, 4] = none ∧
    load_df_from_bytes latin1OnlyParsers "report.xlsx" [80, 75, 3, 4]
      = some ⟨[Cell.str "h"], [[Cell.num 1]]⟩ := by
  decide

/-- C4 (amended): for an `.xls`/`.xlsx` file whose spreadsheet-binary
parse fails, the parser makes exactly one retry, with the permissive
single-byte-encoding delimited parse; the overall outcome is that
fallback's outcome, so the unparsable-format failure surfaces only when
the fallback also fails. -/
theorem load_df_excel_fallback (P : Parsers) (filename : String) (data : List Nat)
    (hext : extOf filename = ".xls" ∨ extOf filename = ".xlsx")
    (hfail : P.read_excel data = none) :
    load_df_from_bytes P filename data = P.read_csv_latin1 data := by
  simp only [load_df_from_bytes]
  have h1 : ¬ (extOf filename = ".csv" ∨ extOf filename = ".txt") := by
    rcases hext with h | h <;> rw [h] <;> decide
  rw [if_neg h1, if_pos hext, hfail]

/-- Parser oracle for the C4 witness: every parser fails. -/
def failingParsers : Parsers := ⟨fun _ => none, fun _ => none, fun _ => none⟩

/-- C4, witness: the amended theorem applied to an uppercase `.XLS`
name (exercising the lowercasing of the extension) and the
all-failing oracle, under which the run does surface the failure. -/
theorem load_df_excel_fallback_witness :
    load_df_from_bytes failingParsers "DATA.XLS" [1, 2, 3]
      = failingParsers.read_csv_latin1 [1, 2, 3] :=
  load_df_excel_fallback failingParsers "DATA.XLS" [1, 2, 3] (Or.inl (by decide)) rfl

/-- C9: when the eligibility filter leaves no candidate, `main` returns
at line 114 — exit status 0, no worksheet call of any kind, no parse
attempted, no sync failure. -/
theorem runMain_no_candidates_noop (env : SheetEnv) (parseFn : String → Option Table)
    (names : List String) (sizeOf : String → Option Int) (mdtmOf : String → Option Nat)
    (timestamp : String) (h : buildCandidates names sizeOf mdtmOf = []) :
    runMain env parseFn names sizeOf mdtmOf timestamp = ⟨0, [], false, none⟩ := by
  unfold runMain
  rw [h]
  rfl

/-- C9, witness: a listing with only directory markers and unsupported
extensions filters down to no candidate, and the run is a clean no-op. -/
theorem runMain_no_candidates_noop_witness :
    runMain ⟨true, true, true, 100, true, true, true, true, true, true, true⟩
        (fun _ => none) [".", "..", "notes.pdf", "README"]
        (fun _ => some 1) (fun _ => none) "T"
      = ⟨0, [], false, none⟩ :=
  runMain_no_candidates_noop _ _ _ _ _ _ (by decide)

/-- Helper: the existential tail shape of a successful sync trace. -/
theorem tail_shape (tl : List Action) (i u1 u2 : Action) (o : Option SyncStep) :
    ∃ pre, ((((tl ++ [i]) ++ [u1]) ++ [u2] : List Action), o) = (pre ++ [i, u1, u2], o) :=
  ⟨tl, by simp⟩

/-- C8 (amended): whenever the mutation sequence completes (every
reached remote call succeeds), its trace ends with the blank-row
insertion at the top of the worksheet followed by the timestamp write
into the first cell of row 1 and the source-filename write into column
4 of row 1 — the cell three columns to the right of the first cell. -/
theorem runSync_success_tail (env : SheetEnv) (values : List (List Cell))
    (filename timestamp : String)
    (hopen : env.openOk = true)
    (hws : env.worksheetExists = true ∨ env.addWorksheetOk = true)
    (hclear : env.batchClearOk = true ∨ env.valuesClearOk = true)
    (hrows : env.addRowsOk = true ∨ ¬ effectiveRowCount env values < values.length)
    (hdata : env.updateDataOk = true)
    (hins : env.insertRowOk = true)
    (hts : env.updateTimestampOk = true)
    (hsrc : env.updateSourceOk = true) :
    ∃ pre, runSync env values filename timestamp =
      (pre ++ [Action.insertRow 1 (List.replicate 26 (Cell.str "")),
               Action.update 1 1 [[Cell.str timestamp]],
               Action.update 1 4 [[Cell.str ("Source file name: " ++ filename)]]], none) := by
  have c1 : ¬ env.openOk = false := by simp [hopen]
  have c2 : ¬ (env.worksheetExists = false ∧ env.addWorksheetOk = false) := by
    rcases hws with h | h <;> simp [h]
  have c3 : ¬ (env.batchClearOk = false ∧ env.valuesClearOk = false) := by
    rcases hclear with h | h <;> simp [h]
  have c4 : ¬ (effectiveRowCount env values < values.length ∧ env.addRowsOk = false) := by
    rcases hrows with h | h
    · simp [h]
    · intro hc
      exact h hc.1
  have c5 : ¬ (values.map (fun r => r.take 26) ≠ [] ∧ env.updateDataOk = false) := by
    simp [hdata]
  have c6 : ¬ env.insertRowOk = false := by simp [hins]
  have c7 : ¬ env.updateTimestampOk = false := by simp [hts]
  have c8 : ¬ env.updateSourceOk = false := by simp [hsrc]
  simp only [runSync]
  rw [if_neg c1, if_neg c2, if_neg c3, if_neg c4, if_neg c5, if_neg c6, if_neg c7, if_neg c8]
  exact tail_shape _ _ _ _ _

/-- C8, witness: the amended theorem at a fully succeeding environment,
small table and concrete timestamp. -/
theorem runSync_success_tail_witness :
    ∃ pre, runSync ⟨true, true, true, 50, true, true, true, true, true, true, true⟩
        [[Cell.str "h"], [Cell.num 1]] "f.csv" "synced at noon" =
      (pre ++ [Action.insertRow 1 (List.replicate 26 (Cell.str "")),
               Action.update 1 1 [[Cell.str "synced at noon"]],
               Action.update 1 4 [[Cell.str ("Source file name: " ++ "f.csv")]]], none) :=
  runSync_success_tail _ _ _ _ rfl (Or.inl rfl) (Or.inl rfl) (Or.inl rfl) rfl rfl rfl rfl

/-- Column of an update call, `none` for the other calls. -/
def updateCol : Action → Option Nat
  | Action.update _ c _ => some c
  | _ => none

/-- C8, counterexample: a complete run writes the source-filename
string to row 1 column 4 (`"D1"`, three columns to the right of the
first cell), and no call in its trace ever writes to column 5, the
cell four columns to the right of the first cell that the claim
names. -/
theorem runSync_update_col_cex :
    runSync ⟨true, true, true, 100, true, true, true, true, true, true, true⟩
        [[Cell.str "h"]] "f.csv" "TS"
      = ([Action.batchClear, Action.update 1 1 [[Cell.str "h"]],
          Action.insertRow 1 (List.replicate 26 (Cell.str "")),
          Action.update 1 1 [[Cell.str "TS"]],
          Action.update 1 4 [[Cell.str "Source file name: f.csv"]]], none) ∧
    (∀ a ∈ (runSync ⟨true, true, true, 100, true, true, true, true, true, true, true⟩
        [[Cell.str "h"]] "f.csv" "TS").1, updateCol a ≠ some 5) := by
  decide

/-- Helper for C3: when the worksheet resolves, the clear step
completes (directly or through the `values_clear` fallback), row
resizing succeeds, and the data write fails, the sync stops at the
write step: its trace is the clear and resize calls followed by the
single attempted data write, and nothing else. -/
theorem runSync_writeData_fail (env : SheetEnv) (v : List Cell) (vs : List (List Cell))
    (filename timestamp : String)
    (hopen : env.openOk = true)
    (hws : env.worksheetExists = true ∨ env.addWorksheetOk = true)
    (hclear : env.batchClearOk = true ∨ env.valuesClearOk = true)
    (hrows : env.addRowsOk = true)
    (hdata : env.updateDataOk = false) :
    ∃ pre, runSync env (v :: vs) filename timestamp
        = (pre ++ [Action.update 1 1 ((v :: vs).map (fun r => r.take 26))],
           some SyncStep.writeData) ∧
      ∀ a ∈ pre, a = Action.batchClear ∨ a = Action.valuesClear ∨
        ∃ n, a = Action.addRows n := by
  have c1 : ¬ env.openOk = false := by simp [hopen]
  have c2 : ¬ (env.worksheetExists = false ∧ env.addWorksheetOk = false) := by
    rcases hws with h | h <;> simp [h]
  have c3 : ¬ (env.batchClearOk = false ∧ env.valuesClearOk = false) := by
    rcases hclear with h | h <;> simp [h]
  have c4 : ¬ (effectiveRowCount env (v :: vs) < (v :: vs).length ∧ env.addRowsOk = false) := by
    simp [hrows]
  have hne : (v :: vs).map (fun r => r.take 26) ≠ [] := by simp
  have c5 : ((v :: vs).map (fun r => r.take 26) ≠ [] ∧ env.updateDataOk = false) := ⟨hne, hdata⟩
  simp only [runSync]
  rw [if_neg c1, if_neg c2, if_neg c3, if_neg c4, if_neg hne, if_pos c5]
  cases hbc : env.batchClearOk with
  | true =>
    by_cases hlt : effectiveRowCount env (v :: vs) < (v :: vs).length
    · refine ⟨[Action.batchClear,
        Action.addRows ((v :: vs).length - effectiveRowCount env (v :: vs))], ?_, ?_⟩
      · simp only [List.length_cons] at hlt
        simp [hbc, hlt]
      · intro a ha
        rcases List.mem_cons.mp ha with rfl | ha2
        · exact Or.inl rfl
        · rcases List.mem_cons.mp ha2 with rfl | ha3
          · exact Or.inr (Or.inr ⟨_, rfl⟩)
          · cases ha3
    · refine ⟨[Action.batchClear], ?_, ?_⟩
      · simp only [List.length_cons] at hlt
        simp [hbc, hlt]
      · intro a ha
        rcases List.mem_cons.mp ha with rfl | ha2
        · exact Or.inl rfl
        · cases ha2
  | false =>
    by_cases hlt : effectiveRowCount env (v :: vs) < (v :: vs).length
    · refine ⟨[Action.batchClear, Action.valuesClear,
        Action.addRows ((v :: vs).length - effectiveRowCount env (v :: vs))], ?_, ?_⟩
      · simp only [List.length_cons] at hlt
        simp [hbc, hlt]
      · intro a ha
        rcases List.mem_cons.mp ha with rfl | ha2
        · exact Or.inl rfl
        · rcases List.mem_cons.mp ha2 with rfl | ha3
          · exact Or.inr (Or.inl rfl)
          · rcases List.mem_cons.mp ha3 with rfl | ha4
            · exact Or.inr (Or.inr ⟨_, rfl⟩)
            · cases ha4
    · refine ⟨[Action.batchClear, Action.valuesClear], ?_, ?_⟩
      · simp only [List.length_cons] at hlt
        simp [hbc, hlt]
      · intro a ha
        rcases List.mem_cons.mp ha with rfl | ha2
        · exact Or.inl rfl
        · rcases List.mem_cons.mp ha2 with rfl | ha3
          · exact Or.inr (Or.inl rfl)
          · cases ha3

/-- C3: in a run that reaches the mutation sequence, when the clear
step completes (directly or through the fallback), resizing does not
fail, and the data-write call fails, the run surfaces the failure at
the write step and exits non-zero, and its trace consists of the clear
and resize calls followed by the single attempted data write — in
particular no blank-row insertion and no timestamp or source-filename
write is ever attempted. -/
theorem runMain_write_failure (env : SheetEnv) (parseFn : String → Option Table)
    (names : List String) (sizeOf : String → Option Int) (mdtmOf : String → Option Nat)
    (timestamp : String) (newest : Desc) (df0 : Table)
    (hsel : selectLatest (buildCandidates names sizeOf mdtmOf) = some newest)
    (hparse : parseFn newest.name = some df0)
    (hopen : env.openOk = true)
    (hws : env.worksheetExists = true ∨ env.addWorksheetOk = true)
    (hclear : env.batchClearOk = true ∨ env.valuesClearOk = true)
    (hrows : env.addRowsOk = true)
    (hdata : env.updateDataOk = false) :
    (runMain env parseFn names sizeOf mdtmOf timestamp).exitCode = 1 ∧
    (runMain env parseFn names sizeOf mdtmOf timestamp).failure = some SyncStep.writeData ∧
    ∃ pre tv, (runMain env parseFn names sizeOf mdtmOf timestamp).trace
        = pre ++ [Action.update 1 1 tv] ∧
      ∀ a ∈ pre, a = Action.batchClear ∨ a = Action.valuesClear ∨
        ∃ n, a = Action.addRows n := by
  obtain ⟨pre, he, hmem⟩ :=
    runSync_writeData_fail env
      ((sanitizeTable (truncateCols df0)).headers.map (fun c => Cell.str (cellToStr c)))
      (sanitizeTable (truncateCols df0)).rows newest.name timestamp
      hopen hws hclear hrows hdata
  have hrm : runMain env parseFn names sizeOf mdtmOf timestamp =
      ⟨1, pre ++ [Action.update 1 1
        (((sanitizeTable (truncateCols df0)).headers.map (fun c => Cell.str (cellToStr c))
          :: (sanitizeTable (truncateCols df0)).rows).map (fun r => r.take 26))],
        true, some SyncStep.writeData⟩ := by
    simp only [runMain, hsel, hparse, he]
    rfl
  rw [hrm]
  exact ⟨rfl, rfl, pre, _, rfl, hmem⟩

/-- C3, witness: a concrete run over one candidate file whose
destination accepts the clear but rejects the data write. -/
theorem runMain_write_failure_witness :
    (runMain ⟨true, true, true, 100, true, true, true, false, true, true, true⟩
        (fun _ => some ⟨[Cell.str "h"], [[Cell.num 1]]⟩)
        ["a.csv"] (fun _ => some 7) (fun _ => some 3) "T").exitCode = 1 ∧
    (runMain ⟨true, true, true, 100, true, true, true, false, true, true, true⟩
        (fun _ => some ⟨[Cell.str "h"], [[Cell.num 1]]⟩)
        ["a.csv"] (fun _ => some 7) (fun _ => some 3) "T").failure
      = some SyncStep.writeData ∧
    ∃ pre tv, (runMain ⟨true, true, true, 100, true, true, true, false, true, true, true⟩
        (fun _ => some ⟨[Cell.str "h"], [[Cell.num 1]]⟩)
        ["a.csv"] (fun _ => some 7) (fun _ => some 3) "T").trace
        = pre ++ [Action.update 1 1 tv] ∧
      ∀ a ∈ pre, a = Action.batchClear ∨ a = Action.valuesClear ∨
        ∃ n, a = Action.addRows n :=
  runMain_write_failure _ _ _ _ _ _ (Desc.mk "a.csv" (some 3) 7) ⟨[Cell.str "h"], [[Cell.num 1]]⟩
    (by decide) rfl rfl (Or.inl rfl) (Or.inl rfl) rfl rfl

/-- C10, witness: two candidate lists identical except for their sizes
select a descriptor with the same filename. -/
theorem selectLatest_size_independent_witness :
    Option.map Desc.name (selectLatest
        [Desc.mk "a.csv" (some 3) 10, Desc.mk "b.csv" (some 3) 20])
      = Option.map Desc.name (selectLatest
        [Desc.mk "a.csv" (some 3) 999, Desc.mk "b.csv" (some 3) 0]) :=
  selectLatest_size_independent
    [Desc.mk "a.csv" (some 3) 10, Desc.mk "b.csv" (some 3) 20]
    [Desc.mk "a.csv" (some 3) 999, Desc.mk "b.csv" (some 3) 0] (by decide)

end OOCL
